import Mathlib

set_option maxRecDepth 100000

/-!
# Forpus corpus-conversion pipeline: formal model and verification

Forpus converts a directory of plain-text documents into several corpus
formats (JSON records, document-term matrix, bipartite graphs, LDA-C and
SVMlight sparse line formats).  The library module itself is not among the
source files of this snapshot; the walkthrough notebook, however, records
the exact corpus texts, the user-supplied tokenizer and stopword filter, and
the complete LDA-C, SVMlight, tokens and GEXF outputs of a run.  The model
below embeds the tokenizer/filter/counter code from the notebook and the
indexing and encoding pipeline from the specification, and is validated
byte-for-byte against the recorded outputs.
-/

namespace Forpus

/-! ## Tokenization (embedded from the notebook's tokenizer cell)

The notebook defines the tokenizer as the regex findall of word-character
runs over the lower-cased document text, and the stopword filter drops the
tokens "the" and "and". -/

/-- A word character in the sense of the regex character class used by the
notebook's tokenizer (letters, digits, underscore; the corpus is ASCII). -/
def isWordChar (c : Char) : Bool := c.isAlphanum || c == '_'

/-- Maximal runs of word characters in a character list, as produced by
regex findall; `cur` accumulates the current run in reverse. -/
def findWords : List Char → List Char → List (List Char)
  | [], cur => if cur.isEmpty then [] else [cur.reverse]
  | c :: cs, cur =>
    if isWordChar c then
      findWords cs (c :: cur)
    else if cur.isEmpty then
      findWords cs []
    else
      cur.reverse :: findWords cs []

/-- The notebook's tokenizer: lower-case the document, then take all
word-character runs. -/
def tokenizer (document : String) : List String :=
  (findWords (document.data.map Char.toLower) []).map fun cs => String.mk cs

/-- The default stopword list of the notebook's filter. -/
def stopwords : List String := ["the", "and"]

/-- The notebook's stopword filter: keep tokens not in the stopword list. -/
def dropStopwords (tokens : List String) : List String :=
  tokens.filter fun token => !(stopwords.contains token)

/-! ## Counting (collections.Counter over the token list)

A Counter over a token list is an association list from token to count,
iterated in first-encounter (insertion) order, as Python dicts are. -/

/-- Add one occurrence of token `t` to the association list, appending a new
entry with count 1 when `t` is absent. -/
def bump : List (String × Nat) → String → List (String × Nat)
  | [], t => [(t, 1)]
  | (s, n) :: rest, t =>
    if s = t then (s, n + 1) :: rest else (s, n) :: bump rest t

/-- Frequency counting of a token list, entries in first-encounter order. -/
def counter (tokens : List String) : List (String × Nat) :=
  tokens.foldl bump []

/-- The per-document token pipeline of the notebook: tokenize, drop
stopwords, count. -/
def docCounts (text : String) : List (String × Nat) :=
  counter (dropStopwords (tokenizer text))

/-- The count of token `t` in a count mapping, 0 when absent. -/
def docCountOf (counts : List (String × Nat)) (t : String) : Nat :=
  match counts.find? (fun p => p.1 == t) with
  | some p => p.2
  | none => 0

/-- Sum of all counts of a count mapping (total token occurrences). -/
def totalCount (counts : List (String × Nat)) : Nat :=
  (counts.map Prod.snd).sum

/-- The tokens of a count mapping, in the order the mapping yields them. -/
def keys (counts : List (String × Nat)) : List String := counts.map Prod.fst

/-! ## Vocabulary and id assignment -/

/-- Append token `t` to the vocabulary unless already present. -/
def ins (v : List String) (t : String) : List String :=
  if t ∈ v then v else v ++ [t]

/-- Insert every token of `ts`, left to right. -/
def insertAll (v : List String) (ts : List String) : List String :=
  ts.foldl ins v

/-- The global vocabulary: iterate documents in corpus order and, within a
document, the tokens in the order the count mapping yields them, assigning
fresh ids (positions) to unseen tokens. -/
def buildVocab (corpus : List (String × String)) : List String :=
  corpus.foldl (fun v d => insertAll v (keys (docCounts d.2))) []

/-- All count-mapping tokens of the corpus, concatenated in corpus order. -/
def allKeys (corpus : List (String × String)) : List String :=
  corpus.flatMap fun d => keys (docCounts d.2)

/-- All (filtered) tokens of the corpus, concatenated in corpus order. -/
def allTokens (corpus : List (String × String)) : List String :=
  corpus.flatMap fun d => dropStopwords (tokenizer d.2)

/-- First-occurrence deduplication: keep the first occurrence of every
element, preserving order.  This is the specification-side description of
the vocabulary order ("assigned in first-encounter order"). -/
def dedupFirst : List String → List String
  | [] => []
  | t :: ts => t :: dedupFirst (ts.filter fun s => s != t)
termination_by l => l.length
decreasing_by
  simp only [List.length_cons]
  exact Nat.lt_succ_of_le (List.length_filter_le _ _)

/-- The number of distinct tokens across the corpus. -/
def distinctTokenCount (corpus : List (String × String)) : Nat :=
  (dedupFirst (allTokens corpus)).length

/-! ## Sparse line formats (LDA-C and SVMlight) -/

/-- Render one id:count pair. -/
def pairStr (i c : Nat) : String := Nat.repr i ++ ":" ++ Nat.repr c

/-- The id:count pairs of a document's LDA-C line: the count-mapping entries
in the order the mapping yields them, with 0-based vocabulary ids. -/
def ldacPairs (vocab : List String) (counts : List (String × Nat)) :
    List (Nat × Nat) :=
  counts.map fun p => (vocab.indexOf p.1, p.2)

/-- One LDA-C line: the number of distinct terms, then the id:count pairs. -/
def ldacLine (vocab : List String) (counts : List (String × Nat)) : String :=
  String.intercalate " "
    (Nat.repr counts.length :: (ldacPairs vocab counts).map fun p => pairStr p.1 p.2)

/-- The LDA-C file lines, one per document in corpus order. -/
def ldacLines (corpus : List (String × String)) : List String :=
  corpus.map fun d => ldacLine (buildVocab corpus) (docCounts d.2)

/-- The id:count pairs of a document's SVMlight line: as for LDA-C but with
1-based feature ids. -/
def svmlightPairs (vocab : List String) (counts : List (String × Nat)) :
    List (Nat × Nat) :=
  counts.map fun p => (vocab.indexOf p.1 + 1, p.2)

/-- One SVMlight line: the document's class label, then the id:count pairs. -/
def svmlightLine (vocab : List String) (cls : Nat)
    (counts : List (String × Nat)) : String :=
  String.intercalate " "
    (Nat.repr cls :: (svmlightPairs vocab counts).map fun p => pairStr p.1 p.2)

/-- The SVMlight file lines, one per document in corpus order, zipped with
the per-document class labels. -/
def svmlightLines (corpus : List (String × String)) (classes : List Nat) :
    List String :=
  (corpus.zip classes).map fun dc =>
    svmlightLine (buildVocab corpus) dc.2 (docCounts dc.1.2)

/-- The leading (first space-separated) field of a line. -/
def leadingField (s : String) : String :=
  String.mk (s.data.takeWhile fun c => c != ' ')

/-- Strict ascending order of a list of ids. -/
def ascendingIds : List Nat → Bool
  | [] => true
  | [_] => true
  | a :: b :: r => decide (a < b) && ascendingIds (b :: r)

/-! ## Graph encoding

One node per document, one per distinct token; for each document and each
token with non-zero count in it, an edge from the token node to the document
node carrying the count as its frequency attribute.  Edges are emitted
iterating tokens in vocabulary order and, per token, documents in corpus
order (matching the recorded GEXF edge ids 0, 1, 2, ...). -/

/-- The edge for token `t` and document `d`, when the count is non-zero:
(token, document identifier, frequency). -/
def edgeFor (t : String) (d : String × String) :
    Option (String × String × Nat) :=
  let c := docCountOf (docCounts d.2) t
  if c = 0 then none else some (t, d.1, c)

/-- All edges of the bipartite graph, in emission order. -/
def graphEdges (corpus : List (String × String)) :
    List (String × String × Nat) :=
  (buildVocab corpus).flatMap fun t => corpus.filterMap (edgeFor t)

/-- Sum of the frequency attributes of the edges incident to the document
node with identifier `s`. -/
def weightSumAt (edges : List (String × String × Nat)) (s : String) : Nat :=
  ((edges.filter fun e => e.2.1 == s).map fun e => e.2.2).sum

/-! ## Dense document-term matrix

One row per document in document order, one column per vocabulary token,
cell = count (0 where absent); the column order is taken as a parameter
(the recorded output's column order is not the first-seen order). -/

/-- One matrix row: the count of every column token, 0 where absent. -/
def matrixRow (columns : List String) (counts : List (String × Nat)) :
    List Nat :=
  columns.map fun t => docCountOf counts t

/-- The document-term matrix: document identifier and dense count row, one
row per document in corpus order. -/
def matrixTable (columns : List String) (corpus : List (String × String)) :
    List (String × List Nat) :=
  corpus.map fun d => (d.1, matrixRow columns (docCounts d.2))

/-! ## Notebook corpus and recorded outputs

The corpus texts are recorded in the notebook's JSON output cell; the
LDA-C, SVMlight, tokens, matrix and GEXF outputs are recorded in the
respective output cells. -/

/-- The apostrophe character (the corpus text of peter_doc1 contains one). -/
def apos : Char := Char.ofNat 39

def maryText : String :=
  "Mary has written the third and last document, but this is also pretty nice.\n"

def peterText : String :=
  "This is the first document. It" ++ String.mk [apos] ++
    "s written by Peter. And it contains a lot of words.\n"

def paulText : String :=
  "There is also a second document. This one is by Paul. Furthermore, this also contains a lot of tokens.\n"

/-- The notebook corpus: (stem, text) pairs in corpus order. -/
def notebookCorpus : List (String × String) :=
  [("mary_doc3", maryText), ("peter_doc1", peterText), ("paul_doc2", paulText)]

/-- The recorded contents of corpus.tokens (both the ldac and the svmlight
run produced these very lines). -/
def recordedTokens : List String :=
  ["mary", "has", "written", "third", "last", "document", "but", "this",
   "is", "also", "pretty", "nice", "first", "it", "s", "by", "peter",
   "contains", "a", "lot", "of", "words", "there", "second", "one", "paul",
   "furthermore", "tokens"]

/-- The recorded lines of corpus.ldac. -/
def recordedLdacLines : List String :=
  ["12 0:1 1:1 2:1 3:1 4:1 5:1 6:1 7:1 8:1 9:1 10:1 11:1",
   "14 7:1 8:1 12:1 5:1 13:2 14:1 2:1 15:1 16:1 17:1 18:1 19:1 20:1 21:1",
   "15 22:1 8:2 9:2 18:2 23:1 5:1 7:2 24:1 15:1 25:1 26:1 17:1 19:1 20:1 27:1"]

/-- The recorded lines of corpus.svmlight (each document in class 0). -/
def recordedSvmlightLines : List String :=
  ["0 1:1 2:1 3:1 4:1 5:1 6:1 7:1 8:1 9:1 10:1 11:1 12:1",
   "0 8:1 9:1 13:1 6:1 14:2 15:1 3:1 16:1 17:1 18:1 19:1 20:1 21:1 22:1",
   "0 23:1 9:2 10:2 19:2 24:1 6:1 8:2 25:1 16:1 26:1 27:1 18:1 20:1 21:1 28:1"]

/-- The first ten column labels of the recorded corpus.matrix table (the
notebook display truncates the middle columns, but shows the leading ones
faithfully). -/
def recordedMatrixColumnsFront : List String :=
  ["is", "this", "also", "document", "a", "lot", "written", "contains",
   "it", "by"]

/-- The recorded edges of corpus.gexf, in emission order (the recorded edge
ids are 0, 1, ..., 40 in exactly this order): (source token node, target
document node, frequency attribute). -/
def recordedGexfEdges : List (String × String × Nat) :=
  [("mary", "mary_doc3", 1), ("has", "mary_doc3", 1),
   ("written", "mary_doc3", 1), ("written", "peter_doc1", 1),
   ("third", "mary_doc3", 1), ("last", "mary_doc3", 1),
   ("document", "mary_doc3", 1), ("document", "peter_doc1", 1),
   ("document", "paul_doc2", 1), ("but", "mary_doc3", 1),
   ("this", "mary_doc3", 1), ("this", "peter_doc1", 1),
   ("this", "paul_doc2", 2), ("is", "mary_doc3", 1),
   ("is", "peter_doc1", 1), ("is", "paul_doc2", 2),
   ("also", "mary_doc3", 1), ("also", "paul_doc2", 2),
   ("pretty", "mary_doc3", 1), ("nice", "mary_doc3", 1),
   ("first", "peter_doc1", 1), ("it", "peter_doc1", 2),
   ("s", "peter_doc1", 1), ("by", "peter_doc1", 1),
   ("by", "paul_doc2", 1), ("peter", "peter_doc1", 1),
   ("contains", "peter_doc1", 1), ("contains", "paul_doc2", 1),
   ("a", "peter_doc1", 1), ("a", "paul_doc2", 2),
   ("lot", "peter_doc1", 1), ("lot", "paul_doc2", 1),
   ("of", "peter_doc1", 1), ("of", "paul_doc2", 1),
   ("words", "peter_doc1", 1), ("there", "paul_doc2", 1),
   ("second", "paul_doc2", 1), ("one", "paul_doc2", 1),
   ("paul", "paul_doc2", 1), ("furthermore", "paul_doc2", 1),
   ("tokens", "paul_doc2", 1)]

/-- Whether the separator ", " (comma, space) occurs in a character list. -/
def hasCommaSpace : List Char → Bool
  | [] => false
  | [_] => false
  | a :: b :: r => (a == ',' && b == ' ') || hasCommaSpace (b :: r)

/-- Whether a filename stem matches the notebook's metadata pattern (an
author field and a title field separated by a comma and a space): the
pattern's only literal text is the comma-space separator, so a stem can
match only when it contains that separator. -/
def matchesAuthorTitle (stem : String) : Bool := hasCommaSpace stem.data

/-- The recorded column labels of corpus.metadata in the notebook's ldac
and svmlight output cells: fallback stem/basename metadata, not
author/title fields. -/
def recordedMetadataColumns : List String := ["stem", "basename"]

/-- The recorded rows of corpus.metadata: (index, stem, basename), one row
per document in corpus order. -/
def recordedMetadataRows : List (String × String × String) :=
  [("../corpus/mary_doc3.txt", "mary_doc3", "mary_doc3"),
   ("../corpus/peter_doc1.txt", "peter_doc1", "peter_doc1"),
   ("../corpus/paul_doc2.txt", "paul_doc2", "paul_doc2")]

/-! ## Error taxonomy and failing paths (modelled from the spec)

The loader and pipeline failure paths live in the library module, which is
not among the source files; they are modelled here from the specification's
error-handling design. -/

/-- The error taxonomy of the conversion pipeline (spec §7). -/
inductive ForpusError where
  | notFound : ForpusError
  | patternMismatch : String → ForpusError
  | preprocessing : String → ForpusError
  deriving DecidableEq

/-- Modelled from the spec: the conversion entry point's source-directory
check (§4.1, §7, §8); the library module implementing it is absent from the
source files.  The source directory is modelled as `none` (missing) or
`some files`; a missing or empty directory fails with a `NotFoundError`
before the encoder runs, and the returned list of written output files is
produced only on success. -/
def convertWith (encode : List (String × String) → List (String × String))
    (sourceDir : Option (List (String × String))) :
    Except ForpusError (List (String × String)) :=
  match sourceDir with
  | none => .error .notFound
  | some [] => .error .notFound
  | some docs => .ok (encode docs)

/-- The output files left behind by a conversion result: none on failure. -/
def filesWritten (r : Except ForpusError (List (String × String))) :
    List (String × String) :=
  match r with
  | .ok fs => fs
  | .error _ => []

/-- The LDA-C encoder's output files (line format file and vocabulary file),
as recorded in the notebook's output cells. -/
def ldacFiles (corpus : List (String × String)) : List (String × String) :=
  [("corpus.ldac", String.intercalate "\n" (ldacLines corpus) ++ "\n"),
   ("corpus.tokens", String.intercalate "\n" (buildVocab corpus) ++ "\n")]

/-- Modelled from the spec: the token pipeline runner's failure path (§4.2);
the library module implementing it is absent from the source files.  The
user-supplied tokenizer is modelled as fallible; when it fails on a
document, the run fails with a `PreprocessingError` naming that document's
identifier (no skipping, no empty substitute). -/
def runPipeline (tok : String → Except String (List String)) :
    List (String × String) →
      Except ForpusError (List (String × List (String × Nat)))
  | [] => .ok []
  | d :: ds =>
    match tok d.2 with
    | .error _ => .error (.preprocessing d.1)
    | .ok tokens =>
      match runPipeline tok ds with
      | .error e => .error e
      | .ok rest => .ok ((d.1, counter tokens) :: rest)

/-! ## Validation against the recorded outputs

The model reproduces the notebook's recorded output files exactly. -/

/-- The modelled vocabulary equals the recorded corpus.tokens lines. -/
theorem buildVocab_notebook : buildVocab notebookCorpus = recordedTokens := by
  decide

/-- The modelled LDA-C lines equal the recorded corpus.ldac lines. -/
theorem ldacLines_notebook : ldacLines notebookCorpus = recordedLdacLines := by
  decide

/-- The modelled SVMlight lines (all classes 0, as in the notebook call)
equal the recorded corpus.svmlight lines. -/
theorem svmlightLines_notebook :
    svmlightLines notebookCorpus [0, 0, 0] = recordedSvmlightLines := by
  decide

/-- The modelled graph edges equal the recorded corpus.gexf edges, in
emission order. -/
theorem graphEdges_notebook :
    graphEdges notebookCorpus = recordedGexfEdges := by
  decide

/-! ## Vocabulary insertion lemmas -/

theorem mem_ins {v : List String} {t a : String} :
    a ∈ ins v t ↔ a ∈ v ∨ a = t := by
  unfold ins
  split
  · rename_i hin
    constructor
    · exact Or.inl
    · rintro (h | rfl)
      · exact h
      · exact hin
  · simp [List.mem_append]

theorem ins_nodup {v : List String} {t : String} (h : v.Nodup) :
    (ins v t).Nodup := by
  unfold ins
  split
  · exact h
  · rename_i hnot
    simp [List.nodup_append, h, hnot]

theorem mem_insertAll {ts : List String} {v : List String} {a : String} :
    a ∈ insertAll v ts ↔ a ∈ v ∨ a ∈ ts := by
  induction ts generalizing v with
  | nil => simp [insertAll]
  | cons t ts ih =>
    rw [insertAll, List.foldl_cons]
    rw [show List.foldl ins (ins v t) ts = insertAll (ins v t) ts from rfl]
    rw [ih, mem_ins]
    simp [or_assoc, List.mem_cons]

theorem insertAll_nodup {ts v : List String} (h : v.Nodup) :
    (insertAll v ts).Nodup := by
  induction ts generalizing v with
  | nil => exact h
  | cons t ts ih =>
    rw [insertAll, List.foldl_cons]
    exact ih (ins_nodup h)

theorem insertAll_append (v xs ys : List String) :
    insertAll v (xs ++ ys) = insertAll (insertAll v xs) ys :=
  List.foldl_append ..

theorem buildVocab_eq_insertAll (corpus : List (String × String)) :
    buildVocab corpus = insertAll [] (allKeys corpus) := by
  suffices h : ∀ (c : List (String × String)) (v : List String),
      c.foldl (fun v d => insertAll v (keys (docCounts d.2))) v =
        insertAll v (allKeys c) by
    exact h corpus []
  intro c
  induction c with
  | nil => intro v; simp [allKeys, insertAll]
  | cons d c ih =>
    intro v
    have hc : allKeys (d :: c) = keys (docCounts d.2) ++ allKeys c := by
      simp [allKeys]
    rw [List.foldl_cons, ih, hc, insertAll_append]

theorem vocab_nodup (corpus : List (String × String)) :
    (buildVocab corpus).Nodup := by
  rw [buildVocab_eq_insertAll]
  exact insertAll_nodup List.nodup_nil

theorem mem_buildVocab {corpus : List (String × String)} {t : String} :
    t ∈ buildVocab corpus ↔ t ∈ allKeys corpus := by
  rw [buildVocab_eq_insertAll, mem_insertAll]
  simp

/-! ## Counter lemmas -/

theorem keys_bump (acc : List (String × Nat)) (t : String) :
    keys (bump acc t) = ins (keys acc) t := by
  induction acc with
  | nil => simp [bump, keys, ins]
  | cons p rest ih =>
    obtain ⟨s, n⟩ := p
    by_cases hst : s = t
    · subst hst
      simp [bump, keys, ins]
    · have hb : keys (bump ((s, n) :: rest) t) = s :: keys (bump rest t) := by
        rw [bump, if_neg hst]
        rfl
      have hk : keys ((s, n) :: rest) = s :: keys rest := rfl
      rw [hb, ih, hk]
      by_cases hmem : t ∈ keys rest
      · rw [ins, if_pos hmem, ins, if_pos (List.mem_cons_of_mem _ hmem)]
      · rw [ins, if_neg hmem, ins, if_neg ?hne]
        case hne =>
          intro hc
          rcases List.mem_cons.mp hc with h | h
          · exact hst h.symm
          · exact hmem h
        simp

theorem keys_counter (ts : List String) :
    keys (counter ts) = insertAll [] ts := by
  suffices h : ∀ (l : List String) (acc : List (String × Nat)),
      keys (l.foldl bump acc) = insertAll (keys acc) l by
    exact h ts []
  intro l
  induction l with
  | nil => intro acc; rfl
  | cons t l ih =>
    intro acc
    rw [List.foldl_cons, ih, keys_bump]
    rfl

theorem keys_counter_nodup (ts : List String) : (keys (counter ts)).Nodup := by
  rw [keys_counter]
  exact insertAll_nodup List.nodup_nil

theorem counts_pos {ts : List String} {p : String × Nat}
    (hp : p ∈ counter ts) : 0 < p.2 := by
  suffices h : ∀ (l : List String) (acc : List (String × Nat)),
      (∀ q ∈ acc, 0 < q.2) → ∀ q ∈ l.foldl bump acc, 0 < q.2 by
    exact h ts [] (by simp) p hp
  intro l
  induction l with
  | nil => intro acc hacc q hq; exact hacc q hq
  | cons t l ih =>
    intro acc hacc q hq
    refine ih (bump acc t) ?_ q hq
    clear hq ih
    induction acc with
    | nil => simp [bump]
    | cons r rest ihr =>
      obtain ⟨s, n⟩ := r
      intro q hq
      by_cases hst : s = t
      · subst hst
        rcases List.mem_cons.mp (by simpa [bump] using hq) with rfl | h
        · exact Nat.succ_pos n
        · exact hacc q (List.mem_cons_of_mem _ h)
      · rw [bump, if_neg hst] at hq
        rcases List.mem_cons.mp hq with rfl | h
        · exact hacc (s, n) (List.mem_cons_self _ _)
        · exact ihr (fun r hr => hacc r (List.mem_cons_of_mem _ hr)) q h

/-! ## docCountOf lemmas -/

theorem docCountOf_cons (s : String) (n : Nat)
    (rest : List (String × Nat)) (t : String) :
    docCountOf ((s, n) :: rest) t = if s = t then n else docCountOf rest t := by
  by_cases hst : s = t
  · rw [if_pos hst, docCountOf, List.find?_cons_of_pos _ (by simpa using hst)]
  · rw [if_neg hst, docCountOf, List.find?_cons_of_neg _ (by simpa using hst),
      docCountOf]

theorem docCountOf_eq_zero_of_not_mem {counts : List (String × Nat)}
    {t : String} (h : t ∉ keys counts) : docCountOf counts t = 0 := by
  induction counts with
  | nil => rfl
  | cons p rest ih =>
    obtain ⟨s, n⟩ := p
    have hk : keys ((s, n) :: rest) = s :: keys rest := rfl
    rw [hk, List.mem_cons] at h
    push_neg at h
    rw [docCountOf_cons, if_neg fun hst => h.1 hst.symm]
    exact ih h.2

theorem docCountOf_of_mem {counts : List (String × Nat)} {t : String}
    {c : Nat} (hnd : (keys counts).Nodup) (hm : (t, c) ∈ counts) :
    docCountOf counts t = c := by
  induction counts with
  | nil => cases hm
  | cons p rest ih =>
    obtain ⟨s, n⟩ := p
    rw [keys, List.map_cons, List.nodup_cons] at hnd
    rw [docCountOf_cons]
    rcases List.mem_cons.mp hm with heq | hmem
    · injection heq with h1 h2
      subst h1
      subst h2
      simp
    · have hts : s ≠ t := by
        rintro rfl
        exact hnd.1 (List.mem_map.mpr ⟨(s, c), hmem, rfl⟩)
      rw [if_neg hts]
      exact ih hnd.2 hmem

theorem mem_of_docCountOf_ne {counts : List (String × Nat)} {t : String}
    (h : docCountOf counts t ≠ 0) : (t, docCountOf counts t) ∈ counts := by
  induction counts with
  | nil => exact absurd rfl h
  | cons p rest ih =>
    obtain ⟨s, n⟩ := p
    rw [docCountOf_cons] at h ⊢
    by_cases hst : s = t
    · subst hst
      simp only [if_pos rfl]
      exact List.mem_cons_self _ _
    · rw [if_neg hst] at h ⊢
      exact List.mem_cons_of_mem _ (ih h)

theorem docCountOf_ne_zero_iff {counts : List (String × Nat)} {t : String}
    (hpos : ∀ p ∈ counts, 0 < p.2) :
    docCountOf counts t ≠ 0 ↔ t ∈ keys counts := by
  induction counts with
  | nil => simp [docCountOf, keys]
  | cons p rest ih =>
    obtain ⟨s, n⟩ := p
    have hpr : ∀ q ∈ rest, 0 < q.2 :=
      fun q hq => hpos q (List.mem_cons_of_mem _ hq)
    have hk : keys ((s, n) :: rest) = s :: keys rest := rfl
    rw [docCountOf_cons, hk, List.mem_cons]
    by_cases hst : s = t
    · subst hst
      have hn : n ≠ 0 :=
        Nat.pos_iff_ne_zero.mp (hpos (s, n) (List.mem_cons_self _ _))
      simp [hn]
    · rw [if_neg hst, ih hpr]
      exact ⟨Or.inr, fun h => h.elim (fun he => absurd he.symm hst) id⟩

theorem keys_docCounts_subset_vocab {corpus : List (String × String)}
    {d : String × String} (hd : d ∈ corpus) {t : String}
    (ht : t ∈ keys (docCounts d.2)) : t ∈ buildVocab corpus := by
  rw [mem_buildVocab, allKeys, List.mem_flatMap]
  exact ⟨d, hd, ht⟩

/-! ## First-encounter deduplication: the insertion fold refines it -/

theorem dedupFirst_nil : dedupFirst [] = [] := by
  rw [dedupFirst.eq_def]

theorem dedupFirst_cons (t : String) (ts : List String) :
    dedupFirst (t :: ts) = t :: dedupFirst (ts.filter fun s => s != t) := by
  rw [dedupFirst.eq_def]

theorem insertAll_eq_append_dedupFirst (ts : List String) :
    ∀ v : List String,
      insertAll v ts = v ++ dedupFirst (ts.filter fun s => !(decide (s ∈ v))) := by
  induction ts with
  | nil => intro v; simp [insertAll, dedupFirst_nil]
  | cons t ts ih =>
    intro v
    rw [insertAll, List.foldl_cons]
    rw [show List.foldl ins (ins v t) ts = insertAll (ins v t) ts from rfl]
    by_cases hmem : t ∈ v
    · rw [ins, if_pos hmem, ih v, List.filter_cons]
      simp [hmem]
    · rw [ins, if_neg hmem, ih (v ++ [t]), List.filter_cons]
      have hpt : (!(decide (t ∈ v))) = true := by simp [hmem]
      rw [if_pos hpt, dedupFirst_cons]
      have hfilter :
          ts.filter (fun s => !(decide (s ∈ v ++ [t]))) =
            (ts.filter fun s => !(decide (s ∈ v))).filter fun s => s != t := by
        rw [List.filter_filter]
        refine List.filter_congr fun s _ => ?_
        by_cases h1 : s = t
        · simp [h1]
        · by_cases h2 : s ∈ v <;> simp [h1, h2]
      rw [hfilter]
      simp

theorem buildVocab_eq_dedupFirst_allKeys (corpus : List (String × String)) :
    buildVocab corpus = dedupFirst (allKeys corpus) := by
  rw [buildVocab_eq_insertAll, insertAll_eq_append_dedupFirst]
  simp

theorem dedupFirst_filter (ts : List String) (p : String → Bool) :
    (dedupFirst ts).filter p = dedupFirst (ts.filter p) := by
  induction ts using dedupFirst.induct with
  | case1 => simp [dedupFirst_nil]
  | case2 t ts ih =>
    rw [dedupFirst_cons, List.filter_cons]
    by_cases hp : p t
    · rw [if_pos (by simp [hp]), List.filter_cons, if_pos (by simp [hp]),
        dedupFirst_cons, ih, List.filter_filter, List.filter_filter]
      have : (ts.filter fun s => (s != t) && p s) =
          ts.filter fun s => p s && (s != t) := by
        refine List.filter_congr fun s _ => ?_
        exact Bool.and_comm _ _
      rw [this]
    · rw [if_neg (by simp [hp]), List.filter_cons, if_neg (by simp [hp]), ih,
        List.filter_filter]
      congr 1
      refine List.filter_congr fun s _ => ?_
      by_cases hst : s = t
      · subst hst
        simp [hp]
      · simp [hst]

theorem dedupFirst_idem (ts : List String) :
    dedupFirst (dedupFirst ts) = dedupFirst ts := by
  induction ts using dedupFirst.induct with
  | case1 => simp [dedupFirst_nil]
  | case2 t ts ih =>
    rw [dedupFirst_cons, dedupFirst_cons, dedupFirst_filter]
    have hself : (ts.filter fun s => s != t).filter (fun s => s != t) =
        ts.filter fun s => s != t := by
      rw [List.filter_filter]
      refine List.filter_congr fun s _ => ?_
      by_cases hst : s = t <;> simp [hst]
    rw [hself, ih]

theorem insertAll_dedupFirst (v ts : List String) :
    insertAll v (dedupFirst ts) = insertAll v ts := by
  rw [insertAll_eq_append_dedupFirst, insertAll_eq_append_dedupFirst,
    dedupFirst_filter, dedupFirst_idem]

theorem keys_docCounts_eq_dedupFirst (text : String) :
    keys (docCounts text) = dedupFirst (dropStopwords (tokenizer text)) := by
  rw [docCounts, keys_counter, insertAll_eq_append_dedupFirst]
  simp

theorem buildVocab_eq_dedupFirst_allTokens (corpus : List (String × String)) :
    buildVocab corpus = dedupFirst (allTokens corpus) := by
  rw [buildVocab_eq_insertAll]
  have h : ∀ (c : List (String × String)) (v : List String),
      insertAll v (allKeys c) = insertAll v (allTokens c) := by
    intro c
    induction c with
    | nil => intro v; rfl
    | cons d c ihc =>
      intro v
      have h1 : allKeys (d :: c) = keys (docCounts d.2) ++ allKeys c := by
        simp [allKeys]
      have h2 : allTokens (d :: c) =
          dropStopwords (tokenizer d.2) ++ allTokens c := by
        simp [allTokens]
      rw [h1, h2, insertAll_append, insertAll_append,
        keys_docCounts_eq_dedupFirst, insertAll_dedupFirst, ihc]
  rw [h, insertAll_eq_append_dedupFirst]
  simp

theorem vocab_length_eq_distinct (corpus : List (String × String)) :
    (buildVocab corpus).length = distinctTokenCount corpus := by
  rw [buildVocab_eq_dedupFirst_allTokens, distinctTokenCount]

/-! ## Positional id lemmas -/

theorem getD_indexOf {v : List String} {t : String} (h : t ∈ v) :
    v.getD (v.indexOf t) "" = t := by
  rw [List.getD_eq_getElem _ _ (List.indexOf_lt_length.mpr h)]
  exact List.getElem_indexOf (List.indexOf_lt_length.mpr h)

theorem indexOf_getD {v : List String} (hnd : v.Nodup) {i : Nat}
    (hi : i < v.length) : v.indexOf (v.getD i "") = i := by
  rw [List.getD_eq_getElem _ _ hi]
  exact List.indexOf_getElem hnd i hi

/-! ## Summation lemmas -/

theorem sum_map_zero (l : List String) :
    (l.map fun _ => (0 : Nat)).sum = 0 := by
  induction l with
  | nil => rfl
  | cons t l ih => simp [ih]

theorem sum_map_update {l : List String} {f g : String → Nat} {x : String}
    {k : Nat} (hnd : l.Nodup) (hx : x ∈ l) (hfx : f x = g x + k)
    (hother : ∀ t ∈ l, t ≠ x → f t = g t) :
    (l.map f).sum = (l.map g).sum + k := by
  induction l with
  | nil => cases hx
  | cons h l ih =>
    rw [List.nodup_cons] at hnd
    rcases List.mem_cons.mp hx with rfl | hxl
    · have heq : l.map f = l.map g :=
        List.map_congr_left fun t ht =>
          hother t (List.mem_cons_of_mem _ ht) fun hc => hnd.1 (hc ▸ ht)
      simp only [List.map_cons, List.sum_cons, heq, hfx]
      omega
    · have hh : f h = g h :=
        hother h (List.mem_cons_self _ _) fun hc => hnd.1 (hc ▸ hxl)
      simp only [List.map_cons, List.sum_cons, hh,
        ih hnd.2 hxl fun t ht hne => hother t (List.mem_cons_of_mem _ ht) hne]
      omega

theorem sum_docCountOf {counts : List (String × Nat)} {vocab : List String}
    (hvnd : vocab.Nodup) (hknd : (keys counts).Nodup)
    (hsub : ∀ t ∈ keys counts, t ∈ vocab) :
    (vocab.map fun t => docCountOf counts t).sum = totalCount counts := by
  induction counts with
  | nil =>
    simp only [totalCount, List.map_nil, List.sum_nil]
    have : (vocab.map fun t => docCountOf [] t).sum =
        (vocab.map fun _ => (0 : Nat)).sum := by
      refine congrArg List.sum (List.map_congr_left fun t _ => rfl)
    rw [this, sum_map_zero]
  | cons p rest ih =>
    obtain ⟨s, n⟩ := p
    have hk : keys ((s, n) :: rest) = s :: keys rest := rfl
    rw [hk, List.nodup_cons] at hknd
    have hsv : s ∈ vocab := hsub s (by rw [hk]; exact List.mem_cons_self _ _)
    have hsubr : ∀ t ∈ keys rest, t ∈ vocab :=
      fun t ht => hsub t (by rw [hk]; exact List.mem_cons_of_mem _ ht)
    have hstep : (vocab.map fun t => docCountOf ((s, n) :: rest) t).sum =
        (vocab.map fun t => docCountOf rest t).sum + n := by
      refine sum_map_update hvnd hsv ?_ ?_
      · rw [docCountOf_cons, if_pos rfl,
          docCountOf_eq_zero_of_not_mem hknd.1]
        omega
      · intro t _ hts
        rw [docCountOf_cons, if_neg fun hst => hts hst.symm]
    rw [hstep, ih hknd.2 hsubr]
    have ht : totalCount ((s, n) :: rest) = n + totalCount rest := by
      simp [totalCount]
    rw [ht]
    omega

/-! ## Graph lemmas -/

theorem sum_flatMap {α : Type} (l : List α) (f : α → List Nat) :
    (l.flatMap f).sum = (l.map fun a => (f a).sum).sum := by
  induction l with
  | nil => rfl
  | cons a l ih => simp [List.flatMap_cons, ih]

theorem counts_docCounts_pos {text : String} {p : String × Nat}
    (hp : p ∈ docCounts text) : 0 < p.2 :=
  counts_pos hp

theorem edgeFor_eq_some {t : String} {d : String × String}
    {e : String × String × Nat} :
    edgeFor t d = some e ↔
      docCountOf (docCounts d.2) t ≠ 0 ∧
        e = (t, d.1, docCountOf (docCounts d.2) t) := by
  unfold edgeFor
  by_cases h : docCountOf (docCounts d.2) t = 0 <;> simp [h, eq_comm]

theorem edgeFor_eq_none {t : String} {d : String × String} :
    edgeFor t d = none ↔ docCountOf (docCounts d.2) t = 0 := by
  unfold edgeFor
  by_cases h : docCountOf (docCounts d.2) t = 0 <;> simp [h]

theorem stems_not_mem_no_edges {corpus : List (String × String)}
    {t s : String} (h : s ∉ corpus.map Prod.fst) :
    (corpus.filterMap (edgeFor t)).filter (fun e => e.2.1 == s) = [] := by
  induction corpus with
  | nil => rfl
  | cons d rest ih =>
    rw [List.map_cons, List.mem_cons] at h
    push_neg at h
    rw [List.filterMap_cons]
    cases hedge : edgeFor t d with
    | none => exact ih h.2
    | some e =>
      have he : e.2.1 = d.1 := by
        rw [(edgeFor_eq_some.mp hedge).2]
      rw [List.filter_cons, if_neg (by simp [he, h.1.symm])]
      exact ih h.2

theorem weightSumAt_token {corpus : List (String × String)} {t s : String}
    {txt : String} (hnd : (corpus.map Prod.fst).Nodup)
    (hmem : (s, txt) ∈ corpus) :
    weightSumAt (corpus.filterMap (edgeFor t)) s =
      docCountOf (docCounts txt) t := by
  induction corpus with
  | nil => cases hmem
  | cons d rest ih =>
    rw [List.map_cons, List.nodup_cons] at hnd
    rcases List.mem_cons.mp hmem with heq | hrest
    · have hs : d = (s, txt) := heq.symm
      subst hs
      rw [List.filterMap_cons]
      have hnot : s ∉ rest.map Prod.fst := hnd.1
      cases hzero : docCountOf (docCounts txt) t with
      | zero =>
        have hedge : edgeFor t (s, txt) = none := edgeFor_eq_none.mpr hzero
        rw [hedge, weightSumAt, stems_not_mem_no_edges hnot]
        rfl
      | succ c =>
        have hedge : edgeFor t (s, txt) = some (t, s, c + 1) :=
          edgeFor_eq_some.mpr ⟨by simp [hzero], by simp [hzero]⟩
        rw [hedge, weightSumAt, List.filter_cons, if_pos (by simp),
          stems_not_mem_no_edges hnot]
        simp
    · have hds : d.1 ≠ s := by
        intro hc
        exact hnd.1 (hc ▸ List.mem_map.mpr ⟨(s, txt), hrest, rfl⟩)
      rw [List.filterMap_cons]
      cases hedge : edgeFor t d with
      | none => exact ih hnd.2 hrest
      | some e =>
        have he : e.2.1 = d.1 := by
          rw [(edgeFor_eq_some.mp hedge).2]
        rw [weightSumAt, List.filter_cons, if_neg (by simp [he, hds])]
        exact ih hnd.2 hrest

theorem stems_nodup_inj {corpus : List (String × String)}
    (hnd : (corpus.map Prod.fst).Nodup) {a b : String × String}
    (ha : a ∈ corpus) (hb : b ∈ corpus) (hab : a.1 = b.1) : a = b := by
  induction corpus with
  | nil => cases ha
  | cons d rest ih =>
    rw [List.map_cons, List.nodup_cons] at hnd
    rcases List.mem_cons.mp ha with rfl | ha2
    · rcases List.mem_cons.mp hb with rfl | hb2
      · rfl
      · exact absurd (hab ▸ List.mem_map.mpr ⟨b, hb2, rfl⟩) hnd.1
    · rcases List.mem_cons.mp hb with rfl | hb2
      · exact absurd (hab ▸ List.mem_map.mpr ⟨a, ha2, rfl⟩) hnd.1
      · exact ih hnd.2 ha2 hb2

theorem edge_mem_iff {corpus : List (String × String)}
    {d : String × String} (hnd : (corpus.map Prod.fst).Nodup)
    (hd : d ∈ corpus) {t : String} {c : Nat} :
    (t, d.1, c) ∈ graphEdges corpus ↔
      c = docCountOf (docCounts d.2) t ∧ c ≠ 0 := by
  constructor
  · intro hmem
    rcases List.mem_flatMap.mp hmem with ⟨u, _, hu⟩
    rcases List.mem_filterMap.mp hu with ⟨e, he, hedge⟩
    obtain ⟨hzero, heq⟩ := edgeFor_eq_some.mp hedge
    injection heq with h1 h2
    subst h1
    injection h2 with h2a h2b
    have hde : e = d := stems_nodup_inj hnd he hd h2a.symm
    subst hde
    exact ⟨h2b, h2b ▸ hzero⟩
  · rintro ⟨rfl, hne⟩
    have htv : t ∈ buildVocab corpus := by
      refine keys_docCounts_subset_vocab hd ?_
      exact (docCountOf_ne_zero_iff fun p hp => counts_pos hp).mp hne
    refine List.mem_flatMap.mpr ⟨t, htv, ?_⟩
    refine List.mem_filterMap.mpr ⟨d, hd, ?_⟩
    exact edgeFor_eq_some.mpr ⟨hne, rfl⟩

theorem weightSumAt_graphEdges {corpus : List (String × String)}
    {d : String × String} (hnd : (corpus.map Prod.fst).Nodup)
    (hd : d ∈ corpus) :
    weightSumAt (graphEdges corpus) d.1 = totalCount (docCounts d.2) := by
  obtain ⟨s, txt⟩ := d
  have hshape : weightSumAt (graphEdges corpus) s =
      ((buildVocab corpus).map fun t =>
        weightSumAt (corpus.filterMap (edgeFor t)) s).sum := by
    rw [weightSumAt, graphEdges, List.filter_flatMap, List.map_flatMap,
      sum_flatMap]
    rfl
  rw [hshape]
  have hcongr : ((buildVocab corpus).map fun t =>
      weightSumAt (corpus.filterMap (edgeFor t)) s).sum =
      ((buildVocab corpus).map fun t => docCountOf (docCounts txt) t).sum := by
    refine congrArg List.sum (List.map_congr_left fun t _ => ?_)
    exact weightSumAt_token hnd hd
  rw [hcongr]
  exact sum_docCountOf (vocab_nodup corpus) (keys_counter_nodup _)
    fun t ht => keys_docCounts_subset_vocab hd ht

/-! ## Claim theorems -/

/-- C1 (amended): for a single conversion run the vocabulary file has one
token per line with line index equal to the token's id, and its line count
equals the number of distinct tokens across the corpus; in the LDA-C lines
each id:count pair's id denotes exactly the token on line id (0-indexed) of
the vocabulary file, while in the SVMlight lines the ids are 1-based: the id
denotes the token on line id − 1. -/
theorem sparse_output_positional_ids (corpus : List (String × String))
    (d : String × String) (hd : d ∈ corpus) :
    (buildVocab corpus).length = distinctTokenCount corpus
    ∧ (∀ i, i < (buildVocab corpus).length →
        (buildVocab corpus).indexOf ((buildVocab corpus).getD i "") = i)
    ∧ (∀ i c, (i, c) ∈ ldacPairs (buildVocab corpus) (docCounts d.2) →
        i < (buildVocab corpus).length ∧
          docCountOf (docCounts d.2) ((buildVocab corpus).getD i "") = c)
    ∧ (∀ i c, (i, c) ∈ svmlightPairs (buildVocab corpus) (docCounts d.2) →
        1 ≤ i ∧ i - 1 < (buildVocab corpus).length ∧
          docCountOf (docCounts d.2)
            ((buildVocab corpus).getD (i - 1) "") = c) := by
  refine ⟨vocab_length_eq_distinct corpus, ?_, ?_, ?_⟩
  · intro i hi
    exact indexOf_getD (vocab_nodup corpus) hi
  · intro i c hic
    rcases List.mem_map.mp hic with ⟨p, hp, heq⟩
    injection heq with h1 h2
    subst h1
    subst h2
    have hpv : p.1 ∈ buildVocab corpus :=
      keys_docCounts_subset_vocab hd (List.mem_map.mpr ⟨p, hp, rfl⟩)
    refine ⟨List.indexOf_lt_length.mpr hpv, ?_⟩
    rw [getD_indexOf hpv]
    exact docCountOf_of_mem (keys_counter_nodup _) hp
  · intro i c hic
    rcases List.mem_map.mp hic with ⟨p, hp, heq⟩
    injection heq with h1 h2
    subst h2
    have hpv : p.1 ∈ buildVocab corpus :=
      keys_docCounts_subset_vocab hd (List.mem_map.mpr ⟨p, hp, rfl⟩)
    have hidx : i - 1 = (buildVocab corpus).indexOf p.1 := by omega
    refine ⟨by omega, ?_, ?_⟩
    · rw [hidx]
      exact List.indexOf_lt_length.mpr hpv
    · rw [hidx, getD_indexOf hpv]
      exact docCountOf_of_mem (keys_counter_nodup _) hp

/-- C1 witness: in the notebook run, the SVMlight pair 12:1 of the first
document denotes the token on vocabulary line 11. -/
theorem sparse_output_positional_ids_witness :
    1 ≤ 12 ∧ 12 - 1 < (buildVocab notebookCorpus).length ∧
      docCountOf (docCounts maryText)
        ((buildVocab notebookCorpus).getD (12 - 1) "") = 1 :=
  (sparse_output_positional_ids notebookCorpus ("mary_doc3", maryText)
      (by decide)).2.2.2 12 1 (by decide)

/-- C1 counterexample: the recorded SVMlight line of the first notebook
document contains the pair 12:1, yet the token on vocabulary line 12 is
"first", which has count 0 in that document — so SVMlight ids do not denote
the token on line id of the vocabulary file. -/
theorem svmlight_ids_not_zero_based :
    (12, 1) ∈ svmlightPairs (buildVocab notebookCorpus) (docCounts maryText)
    ∧ (buildVocab notebookCorpus).getD 12 "" = "first"
    ∧ docCountOf (docCounts maryText) "first" = 0 := by
  decide

/-- C2: the vocabulary is the first-encounter deduplication of the corpus
tokens (documents in corpus order, tokens within a document in counting
order), ids are contiguous from 0 (every id below the length is taken,
injectively), and document ids are 0-based corpus positions (line i of the
LDA-C output is the line of document i). -/
theorem vocabulary_id_assignment (corpus : List (String × String)) :
    buildVocab corpus = dedupFirst (allKeys corpus)
    ∧ (buildVocab corpus).Nodup
    ∧ (∀ t, t ∈ buildVocab corpus →
        (buildVocab corpus).indexOf t < (buildVocab corpus).length)
    ∧ (∀ i, i < (buildVocab corpus).length →
        ∃ t, t ∈ buildVocab corpus ∧ (buildVocab corpus).indexOf t = i)
    ∧ (ldacLines corpus).length = corpus.length
    ∧ (∀ i, i < corpus.length →
        (ldacLines corpus).getD i "" =
          ldacLine (buildVocab corpus)
            (docCounts ((corpus.getD i ("", "")).2))) := by
  refine ⟨buildVocab_eq_dedupFirst_allKeys corpus, vocab_nodup corpus,
    ?_, ?_, by simp [ldacLines], ?_⟩
  · intro t ht
    exact List.indexOf_lt_length.mpr ht
  · intro i hi
    refine ⟨(buildVocab corpus).getD i "", ?_,
      indexOf_getD (vocab_nodup corpus) hi⟩
    rw [List.getD_eq_getElem _ _ hi]
    exact List.getElem_mem _
  · intro i hi
    have hlen : i < (corpus.map fun d =>
        ldacLine (buildVocab corpus) (docCounts d.2)).length := by
      simpa using hi
    rw [ldacLines, List.getD_eq_getElem _ _ hlen, List.getElem_map,
      List.getD_eq_getElem _ _ hi]

/-- C2 witness: in the notebook run every id below the vocabulary length is
the id of some token; id 27 is taken. -/
theorem vocabulary_id_assignment_witness :
    ∃ t, t ∈ buildVocab notebookCorpus ∧
      (buildVocab notebookCorpus).indexOf t = 27 :=
  (vocabulary_id_assignment notebookCorpus).2.2.2.1 27 (by decide)

/-- C3 (amended): for every document the emitted id:count pairs cover
exactly the vocabulary ids with non-zero count in that document, but they
appear in the order the counting mapping yields the tokens (first-encounter
order within the document), not sorted by ascending id; the SVMlight pairs
are the LDA-C pairs with every id shifted by one. -/
theorem sparse_pairs_cover_nonzero (corpus : List (String × String))
    (d : String × String) (hd : d ∈ corpus) :
    ((ldacPairs (buildVocab corpus) (docCounts d.2)).map Prod.fst =
      (keys (docCounts d.2)).map fun t => (buildVocab corpus).indexOf t)
    ∧ (∀ i c, (i, c) ∈ ldacPairs (buildVocab corpus) (docCounts d.2) →
        i < (buildVocab corpus).length ∧
          c = docCountOf (docCounts d.2) ((buildVocab corpus).getD i "") ∧
          c ≠ 0)
    ∧ (∀ i, i < (buildVocab corpus).length →
        docCountOf (docCounts d.2) ((buildVocab corpus).getD i "") ≠ 0 →
        (i, docCountOf (docCounts d.2) ((buildVocab corpus).getD i "")) ∈
          ldacPairs (buildVocab corpus) (docCounts d.2))
    ∧ svmlightPairs (buildVocab corpus) (docCounts d.2) =
        (ldacPairs (buildVocab corpus) (docCounts d.2)).map fun p =>
          (p.1 + 1, p.2) := by
  refine ⟨?_, ?_, ?_, ?_⟩
  · simp [ldacPairs, keys, List.map_map]
  · intro i c hic
    rcases List.mem_map.mp hic with ⟨p, hp, heq⟩
    injection heq with h1 h2
    subst h1
    subst h2
    have hpv : p.1 ∈ buildVocab corpus :=
      keys_docCounts_subset_vocab hd (List.mem_map.mpr ⟨p, hp, rfl⟩)
    refine ⟨List.indexOf_lt_length.mpr hpv, ?_, ?_⟩
    · rw [getD_indexOf hpv]
      exact (docCountOf_of_mem (keys_counter_nodup _) hp).symm
    · exact Nat.pos_iff_ne_zero.mp (counts_pos hp)
  · intro i hi hne
    have hmem : ((buildVocab corpus).getD i "",
        docCountOf (docCounts d.2) ((buildVocab corpus).getD i "")) ∈
        docCounts d.2 := mem_of_docCountOf_ne hne
    have himg : ((buildVocab corpus).indexOf ((buildVocab corpus).getD i ""),
        docCountOf (docCounts d.2) ((buildVocab corpus).getD i "")) ∈
          ldacPairs (buildVocab corpus) (docCounts d.2) :=
      List.mem_map.mpr ⟨_, hmem, rfl⟩
    rw [show (buildVocab corpus).indexOf ((buildVocab corpus).getD i "") = i
      from indexOf_getD (vocab_nodup corpus) hi] at himg
    exact himg
  · simp [ldacPairs, svmlightPairs, List.map_map]

/-- C3 witness: in the notebook run the pair 12:1 on the second document's
line denotes a non-zero count of the token with id 12. -/
theorem sparse_pairs_cover_nonzero_witness :
    12 < (buildVocab notebookCorpus).length ∧
      1 = docCountOf (docCounts peterText)
          ((buildVocab notebookCorpus).getD 12 "") ∧ (1 : Nat) ≠ 0 :=
  (sparse_pairs_cover_nonzero notebookCorpus ("peter_doc1", peterText)
      (by decide)).2.1 12 1 (by decide)

/-- C3 counterexample: on the second notebook document's LDA-C line the pair
ids run 7, 8, 12, 5, ... — id 12 is immediately followed by id 5 — so the
pairs are not sorted by ascending id. -/
theorem ldac_pairs_not_ascending :
    ((ldacPairs (buildVocab notebookCorpus)
        (docCounts peterText)).map Prod.fst).getD 2 0 = 12
    ∧ ((ldacPairs (buildVocab notebookCorpus)
        (docCounts peterText)).map Prod.fst).getD 3 0 = 5
    ∧ ascendingIds ((ldacPairs (buildVocab notebookCorpus)
        (docCounts peterText)).map Prod.fst) = false := by
  decide

/-- C4 (amended): the dense-matrix encoder writes one row per document in
document order (labelled by the document identifier) and one column per
vocabulary token — in an implementation-determined column order that is a
permutation of the vocabulary, not first-seen order — and every cell of a
row is written, holding the count of the column token in the row document
and 0 where the token is absent. -/
theorem dtm_cells_are_counts (columns : List String)
    (corpus : List (String × String)) (d : String × String)
    (hperm : columns.Perm (buildVocab corpus)) (hd : d ∈ corpus) :
    (matrixTable columns corpus).length = corpus.length
    ∧ (∀ i, i < corpus.length →
        ((matrixTable columns corpus).getD i ("", [])).1 =
          (corpus.getD i ("", "")).1)
    ∧ (matrixRow columns (docCounts d.2)).length = columns.length
    ∧ (∀ j, j < columns.length →
        (matrixRow columns (docCounts d.2)).getD j 0 =
          docCountOf (docCounts d.2) (columns.getD j ""))
    ∧ (matrixRow columns (docCounts d.2)).sum =
        totalCount (docCounts d.2) := by
  refine ⟨by simp [matrixTable], ?_, by simp [matrixRow], ?_, ?_⟩
  · intro i hi
    have hlen : i < (matrixTable columns corpus).length := by
      simp [matrixTable, hi]
    rw [List.getD_eq_getElem _ _ hlen, List.getD_eq_getElem _ _ hi]
    simp [matrixTable]
  · intro j hj
    have hlen : j < (matrixRow columns (docCounts d.2)).length := by
      simp [matrixRow, hj]
    rw [List.getD_eq_getElem _ _ hlen, List.getD_eq_getElem _ _ hj]
    simp [matrixRow]
  · have hsum : (matrixRow columns (docCounts d.2)).sum =
        ((buildVocab corpus).map fun t => docCountOf (docCounts d.2) t).sum :=
      List.Perm.sum_eq (hperm.map _)
    rw [hsum]
    exact sum_docCountOf (vocab_nodup corpus) (keys_counter_nodup _)
      fun t ht => keys_docCounts_subset_vocab hd ht

/-- C4 witness: with the vocabulary itself as column order, the first
notebook document's dense row sums to its total token count. -/
theorem dtm_cells_are_counts_witness :
    (matrixRow (buildVocab notebookCorpus) (docCounts maryText)).sum =
      totalCount (docCounts maryText) :=
  (dtm_cells_are_counts (buildVocab notebookCorpus) notebookCorpus
      ("mary_doc3", maryText) (List.Perm.refl _) (by decide)).2.2.2.2

/-- C4 counterexample: the recorded corpus.matrix table's first column is
"is", but the first token in first-seen order is "mary" — the dense matrix's
columns are not in first-seen order. -/
theorem matrix_columns_not_first_seen :
    recordedMatrixColumnsFront.getD 0 "" = "is"
    ∧ (buildVocab notebookCorpus).getD 0 "" = "mary"
    ∧ recordedMatrixColumnsFront.getD 0 "" ≠
        (buildVocab notebookCorpus).getD 0 "" := by
  decide

/-- C5: in the graph encoding an edge from a token node to a document node
exists exactly when the token has non-zero count in that document, its
frequency attribute is that count, and the frequencies of the edges incident
to a document node sum to the total of that document's count mapping. -/
theorem graph_edges_frequency (corpus : List (String × String))
    (d : String × String) (hnd : (corpus.map Prod.fst).Nodup)
    (hd : d ∈ corpus) :
    (∀ t c, (t, d.1, c) ∈ graphEdges corpus ↔
        c = docCountOf (docCounts d.2) t ∧ c ≠ 0)
    ∧ weightSumAt (graphEdges corpus) d.1 = totalCount (docCounts d.2) :=
  ⟨fun _ _ => edge_mem_iff hnd hd, weightSumAt_graphEdges hnd hd⟩

/-- C5 witness: in the notebook run the edge frequencies incident to the
paul_doc2 node sum to that document's total token count. -/
theorem graph_edges_frequency_witness :
    weightSumAt (graphEdges notebookCorpus) "paul_doc2" =
      totalCount (docCounts paulText) :=
  (graph_edges_frequency notebookCorpus ("paul_doc2", paulText) (by decide)
      (by decide)).2

/-- C6 (code bug): in the recorded notebook run, no filename stem matches
the user-supplied author/title metadata pattern (no stem contains the
comma-space separator), yet the conversion completed instead of failing
with a PatternMismatchError naming a filename: the recorded LDA-C lines
were written, and the recorded corpus.metadata holds fallback stem/basename
columns with one row per document. -/
theorem pattern_mismatch_not_raised :
    (notebookCorpus.map fun d => matchesAuthorTitle d.1) =
      [false, false, false]
    ∧ ldacLines notebookCorpus = recordedLdacLines
    ∧ recordedMetadataColumns = ["stem", "basename"]
    ∧ recordedMetadataRows.map (fun r => r.2.1) =
        notebookCorpus.map Prod.fst := by
  decide

/-- C7: a missing or empty source directory fails every conversion with a
NotFoundError, and no output file is written. -/
theorem not_found_before_output
    (encode : List (String × String) → List (String × String))
    (dir : Option (List (String × String)))
    (h : dir = none ∨ dir = some []) :
    convertWith encode dir = .error .notFound
    ∧ filesWritten (convertWith encode dir) = [] := by
  rcases h with rfl | rfl
  · exact ⟨rfl, rfl⟩
  · exact ⟨rfl, rfl⟩

/-- C7 witness: converting a missing source directory to LDA-C fails with
NotFoundError and leaves no files. -/
theorem not_found_before_output_witness :
    convertWith ldacFiles none = .error .notFound
    ∧ filesWritten (convertWith ldacFiles none) = [] :=
  not_found_before_output ldacFiles none (Or.inl rfl)

/-- C8: when the user-supplied tokenizer fails on some document, the
pipeline fails with a PreprocessingError naming an offending document's
identifier; the failing document is neither skipped nor given an empty
token set. -/
theorem preprocessing_error_names_document
    (tok : String → Except String (List String))
    (corpus : List (String × String)) (d : String × String)
    (hd : d ∈ corpus) (msg : String) (herr : tok d.2 = .error msg) :
    ∃ g, g ∈ corpus ∧ (∃ m, tok g.2 = .error m) ∧
      runPipeline tok corpus = .error (.preprocessing g.1) := by
  induction corpus with
  | nil => cases hd
  | cons d0 rest ih =>
    cases ht0 : tok d0.2 with
    | error m0 =>
      exact ⟨d0, List.mem_cons_self _ _, ⟨m0, ht0⟩, by rw [runPipeline, ht0]⟩
    | ok toks =>
      have hd2 : d ∈ rest := by
        rcases List.mem_cons.mp hd with rfl | h
        · rw [herr] at ht0
          cases ht0
        · exact h
      rcases ih hd2 with ⟨g, hg, hgerr, heq⟩
      refine ⟨g, List.mem_cons_of_mem _ hg, hgerr, ?_⟩
      rw [runPipeline, ht0, heq]

/-- C8 witness: a tokenizer that always fails makes the pipeline fail with a
PreprocessingError naming the only document. -/
theorem preprocessing_error_names_document_witness :
    ∃ g, g ∈ [("doc0", "text")] ∧
      (∃ m, (fun _ : String =>
        (Except.error "fail" : Except String (List String))) g.2 =
          .error m) ∧
      runPipeline (fun _ => .error "fail") [("doc0", "text")] =
        .error (.preprocessing g.1) :=
  preprocessing_error_names_document (fun _ => .error "fail")
    [("doc0", "text")] ("doc0", "text") (List.mem_singleton.mpr rfl)
    "fail" rfl

/-- C9: on identical ordered input the pipeline produces identical
vocabulary id assignments and identical sparse-line output; the embedded
pipeline is a pure function of the ordered corpus. -/
theorem pipeline_deterministic (c1 c2 : List (String × String))
    (classes : List Nat) (h : c1 = c2) :
    buildVocab c1 = buildVocab c2 ∧ ldacLines c1 = ldacLines c2
    ∧ svmlightLines c1 classes = svmlightLines c2 classes
    ∧ ldacFiles c1 = ldacFiles c2 := by
  subst h
  exact ⟨rfl, rfl, rfl, rfl⟩

/-- C9 witness: two runs on the notebook corpus agree. -/
theorem pipeline_deterministic_witness :
    buildVocab notebookCorpus = buildVocab notebookCorpus
    ∧ ldacLines notebookCorpus = ldacLines notebookCorpus
    ∧ svmlightLines notebookCorpus [0, 0, 0] =
        svmlightLines notebookCorpus [0, 0, 0]
    ∧ ldacFiles notebookCorpus = ldacFiles notebookCorpus :=
  pipeline_deterministic notebookCorpus notebookCorpus [0, 0, 0] rfl

/-- C10: the leading field of every LDA-C line is the number of id:count
pairs on that line (the number of distinct tokens with non-zero count), not
the total occurrence count: on the second notebook document the recorded
leading field is 14 (the pair count) while the total occurrence count
is 15. -/
theorem ldac_leading_field_distinct_count
    (corpus : List (String × String)) (d : String × String) :
    (ldacLine (buildVocab corpus) (docCounts d.2) =
      String.intercalate " "
        (Nat.repr ((ldacPairs (buildVocab corpus) (docCounts d.2)).length) ::
          (ldacPairs (buildVocab corpus) (docCounts d.2)).map fun p =>
            pairStr p.1 p.2))
    ∧ leadingField (recordedLdacLines.getD 1 "") = Nat.repr 14
    ∧ (ldacPairs (buildVocab notebookCorpus)
        (docCounts peterText)).length = 14
    ∧ totalCount (docCounts peterText) = 15 := by
  refine ⟨?_, by decide, by decide, by decide⟩
  rw [ldacLine, show (ldacPairs (buildVocab corpus) (docCounts d.2)).length =
    (docCounts d.2).length from List.length_map _ _]

end Forpus
